import Mathlib

/-!
Verification of the rock/paper/scissors websocket game server
(`rps-websocket-server.py`): a shallow embedding of the game rules
(`Gesture`, `Game.turn`), the judge loop, the matchmaker loop, the
session move dispatch, and the logon name truncation, together with
theorems settling the specification's claims about them.
-/

namespace RPS

/-- The `Gesture` enum of the source: ROCK = 0, PAPER = 1, SCISSORS = 2,
PASS = -1. -/
inductive Gesture where
  | ROCK
  | PAPER
  | SCISSORS
  | PASS
deriving DecidableEq, Repr, Fintype

/-- The enum member values (`Gesture.value` in Python). -/
def Gesture.value : Gesture → Int
  | .ROCK => 0
  | .PAPER => 1
  | .SCISSORS => 2
  | .PASS => -1

/-- `Gesture(v)`: enum lookup by value; any value that is not a member
value falls through to `_missing_`, which returns PASS. -/
def Gesture.ofValue (v : Int) : Gesture :=
  if v = 0 then .ROCK
  else if v = 1 then .PAPER
  else if v = 2 then .SCISSORS
  else if v = -1 then .PASS
  else .PASS

/-- `Gesture.__gt__`: the boolean formula of the source, literally:
ROCK beats SCISSORS, PAPER beats ROCK, SCISSORS beats PAPER, and any
non-PASS beats PASS. -/
def Gesture.gt (a b : Gesture) : Bool :=
  (a == .ROCK && b == .SCISSORS) ||
  (a == .PAPER && b == .ROCK) ||
  (a == .SCISSORS && b == .PAPER) ||
  (a != .PASS && b == .PASS)

/-- The two special (non-Gesture) submissions a session can send to the
judge: the strings `leave` and `surrender` in the source. -/
inductive Special where
  | leave
  | surrender
deriving DecidableEq, Repr

/-- A judge-queue submission: either a `Gesture` or a special token. -/
inductive Move where
  | ges : Gesture → Move
  | sp : Special → Move
deriving DecidableEq, Repr

/-- One entry of `Game.turns`: the dict `{winner: ..., user1.uid: move1,
user2.uid: move2}` of the source, with the two gesture entries kept as an
association list keyed by UID. -/
structure TurnRec where
  winner : Option String
  moves : List (String × Gesture)
deriving DecidableEq, Repr

/-- The `Game` class: participants are represented by their UIDs (the
source's `User.__eq__` compares UIDs only). -/
structure Game where
  user1 : String
  user2 : String
  score1 : Nat
  score2 : Nat
  winner : Option String
  special : Option Special
  turns : List TurnRec
deriving DecidableEq, Repr

/-- `Game.__init__(user1, user2)`: scores 0, no winner, no special, no
turns. -/
def Game.fresh (u1 u2 : String) : Game :=
  { user1 := u1, user2 := u2, score1 := 0, score2 := 0,
    winner := none, special := none, turns := [] }

/-- `Game.turn(move1, move2)`. The source first type-checks that both
arguments are `Gesture`s (our embedding makes that vacuous), then
compares them, increments the turn winner's score, sets `self.winner`
when the incremented score reaches `max(10, other + 2)`, and appends one
turn record holding the turn winner and both gestures keyed by UID. -/
def Game.turn (g : Game) (move1 move2 : Gesture) : Game :=
  if Gesture.gt move1 move2 then
    { g with
      score1 := g.score1 + 1,
      winner := if max 10 (g.score2 + 2) ≤ g.score1 + 1 then some g.user1 else g.winner,
      turns := g.turns ++
        [{ winner := some g.user1, moves := [(g.user1, move1), (g.user2, move2)] }] }
  else if Gesture.gt move2 move1 then
    { g with
      score2 := g.score2 + 1,
      winner := if max 10 (g.score1 + 2) ≤ g.score2 + 1 then some g.user2 else g.winner,
      turns := g.turns ++
        [{ winner := some g.user2, moves := [(g.user1, move1), (g.user2, move2)] }] }
  else
    { g with
      turns := g.turns ++
        [{ winner := none, moves := [(g.user1, move1), (g.user2, move2)] }] }

/-- The game states the server can actually reach: a game starts fresh,
and the judge plays a turn only while the game is still running (both
sessions leave the play loop as soon as `game.winner` is set, so no
further submissions for that game reach the judge). -/
inductive Reachable : Game → Prop where
  | start (u1 u2 : String) : Reachable (Game.fresh u1 u2)
  | step {g : Game} (m1 m2 : Gesture) :
      Reachable g → g.winner = none → Reachable (g.turn m1 m2)

/-- The score invariant: while the game is running neither score has yet
reached the win threshold; once the winner is set the leader has at
least 10 points and leads by at least 2. -/
def scoreInv (g : Game) : Prop :=
  (g.winner = none →
    g.score1 < max 10 (g.score2 + 2) ∧ g.score2 < max 10 (g.score1 + 2)) ∧
  (g.winner ≠ none →
    10 ≤ max g.score1 g.score2 ∧
    (g.score1 + 2 ≤ g.score2 ∨ g.score2 + 2 ≤ g.score1))

lemma gesture_gt_asymm {m1 m2 : Gesture} (h1 : Gesture.gt m1 m2 = true)
    (h2 : Gesture.gt m2 m1 = true) : False := by
  revert h1 h2
  cases m1 <;> cases m2 <;> decide

lemma scoreInv_fresh (u1 u2 : String) : scoreInv (Game.fresh u1 u2) := by
  simp [scoreInv, Game.fresh]

lemma scoreInv_turn {g : Game} (hw : g.winner = none) (hinv : scoreInv g)
    (m1 m2 : Gesture) : scoreInv (g.turn m1 m2) := by
  obtain ⟨hrun, _⟩ := hinv
  have hb := hrun hw
  cases h1 : Gesture.gt m1 m2 with
  | true =>
    by_cases hc : max 10 (g.score2 + 2) ≤ g.score1 + 1 <;>
      simp [Game.turn, scoreInv, h1, hc, hw] <;> omega
  | false =>
    cases h2 : Gesture.gt m2 m1 with
    | true =>
      by_cases hc : max 10 (g.score1 + 2) ≤ g.score2 + 1 <;>
        simp [Game.turn, scoreInv, h1, h2, hc, hw] <;> omega
    | false =>
      simp [Game.turn, scoreInv, h1, h2, hw]
      omega

lemma reachable_scoreInv {g : Game} (h : Reachable g) : scoreInv g := by
  induction h with
  | start u1 u2 => exact scoreInv_fresh u1 u2
  | step m1 m2 _ hw ih => exact scoreInv_turn hw ih m1 m2

/-- C1: in every reachable game, `Game.turn` sets the winner exactly when
the scoring side's incremented score reaches `max(10, other + 2)`; once
the winner is set by score the leader has at least 10 points and leads by
at least 2; in particular a 10-9 (or 9-10) score leaves the winner
unset. -/
theorem game_win_condition (g : Game) (h : Reachable g) :
    (∀ m1 m2 : Gesture, g.winner = none →
      ((g.turn m1 m2).winner ≠ none ↔
        (Gesture.gt m1 m2 = true ∧ max 10 (g.score2 + 2) ≤ g.score1 + 1) ∨
        (Gesture.gt m2 m1 = true ∧ max 10 (g.score1 + 2) ≤ g.score2 + 1))) ∧
    (g.winner ≠ none →
      10 ≤ max g.score1 g.score2 ∧
      (g.score1 + 2 ≤ g.score2 ∨ g.score2 + 2 ≤ g.score1)) ∧
    (g.score1 = 10 ∧ g.score2 = 9 → g.winner = none) ∧
    (g.score1 = 9 ∧ g.score2 = 10 → g.winner = none) := by
  have hinv := reachable_scoreInv h
  obtain ⟨hrun, hwon⟩ := hinv
  refine ⟨?_, hwon, ?_, ?_⟩
  · intro m1 m2 hw
    cases h1 : Gesture.gt m1 m2 with
    | true =>
      have h2 : Gesture.gt m2 m1 = false := by
        cases h2 : Gesture.gt m2 m1 with
        | true => exact absurd (gesture_gt_asymm h1 h2) not_false
        | false => rfl
      by_cases hc : max 10 (g.score2 + 2) ≤ g.score1 + 1 <;>
        simp [Game.turn, h1, h2, hc, hw]
    | false =>
      cases h2 : Gesture.gt m2 m1 with
      | true =>
        by_cases hc : max 10 (g.score1 + 2) ≤ g.score2 + 1 <;>
          simp [Game.turn, h1, h2, hc, hw]
      | false =>
        simp [Game.turn, h1, h2, hw]
  · rintro ⟨hs1, hs2⟩
    cases hcase : g.winner with
    | none => rfl
    | some w =>
      have := hwon (by simp [hcase])
      omega
  · rintro ⟨hs1, hs2⟩
    cases hcase : g.winner with
    | none => rfl
    | some w =>
      have := hwon (by simp [hcase])
      omega

/-- Witness for C1 at a concrete fresh game. -/
theorem game_win_condition_witness :
    (∀ m1 m2 : Gesture, (Game.fresh "A" "B").winner = none →
      (((Game.fresh "A" "B").turn m1 m2).winner ≠ none ↔
        (Gesture.gt m1 m2 = true ∧
          max 10 ((Game.fresh "A" "B").score2 + 2) ≤ (Game.fresh "A" "B").score1 + 1) ∨
        (Gesture.gt m2 m1 = true ∧
          max 10 ((Game.fresh "A" "B").score1 + 2) ≤ (Game.fresh "A" "B").score2 + 1))) ∧
    ((Game.fresh "A" "B").winner ≠ none →
      10 ≤ max (Game.fresh "A" "B").score1 (Game.fresh "A" "B").score2 ∧
      ((Game.fresh "A" "B").score1 + 2 ≤ (Game.fresh "A" "B").score2 ∨
        (Game.fresh "A" "B").score2 + 2 ≤ (Game.fresh "A" "B").score1)) ∧
    ((Game.fresh "A" "B").score1 = 10 ∧ (Game.fresh "A" "B").score2 = 9 →
      (Game.fresh "A" "B").winner = none) ∧
    ((Game.fresh "A" "B").score1 = 9 ∧ (Game.fresh "A" "B").score2 = 10 →
      (Game.fresh "A" "B").winner = none) :=
  game_win_condition (Game.fresh "A" "B") (Reachable.start "A" "B")

/-- C3: `Game.turn` increments exactly the turn winner's score and leaves
the loser's unchanged; a draw changes neither score and happens exactly
when the gestures are equal; every call appends exactly one turn record
holding the turn winner (or none) and both gestures keyed by UID. -/
theorem game_turn_scoring (g : Game) (m1 m2 : Gesture) :
    (Gesture.gt m1 m2 = true →
      (g.turn m1 m2).score1 = g.score1 + 1 ∧ (g.turn m1 m2).score2 = g.score2) ∧
    (Gesture.gt m2 m1 = true →
      (g.turn m1 m2).score2 = g.score2 + 1 ∧ (g.turn m1 m2).score1 = g.score1) ∧
    ((Gesture.gt m1 m2 = false ∧ Gesture.gt m2 m1 = false) →
      (g.turn m1 m2).score1 = g.score1 ∧ (g.turn m1 m2).score2 = g.score2) ∧
    ((Gesture.gt m1 m2 = false ∧ Gesture.gt m2 m1 = false) ↔ m1 = m2) ∧
    (g.turn m1 m2).turns = g.turns ++
      [{ winner := if Gesture.gt m1 m2 then some g.user1
                   else if Gesture.gt m2 m1 then some g.user2 else none,
         moves := [(g.user1, m1), (g.user2, m2)] }] := by
  cases m1 <;> cases m2 <;>
    simp [Game.turn, Gesture.gt]

/-- Witness for C3 at a concrete game and gesture pair. -/
theorem game_turn_scoring_witness :
    ((Game.fresh "A" "B").turn .ROCK .SCISSORS).score1 = 1 ∧
    ((Game.fresh "A" "B").turn .ROCK .SCISSORS).score2 = 0 ∧
    ((Game.fresh "A" "B").turn .ROCK .SCISSORS).turns =
      [{ winner := some "A", moves := [("A", .ROCK), ("B", .SCISSORS)] }] := by
  have h := game_turn_scoring (Game.fresh "A" "B") .ROCK .SCISSORS
  refine ⟨(h.1 (by decide)).1, (h.1 (by decide)).2, ?_⟩
  have ht := h.2.2.2.2
  simpa [Game.fresh] using ht

/-- C4 counterexample: the claim calls `Gesture.__gt__` restricted to
ROCK/PAPER/SCISSORS a strict partial order, but the relation is cyclic
and therefore not transitive: ROCK beats SCISSORS and SCISSORS beats
PAPER, yet ROCK does not beat PAPER. -/
theorem gesture_gt_not_transitive :
    Gesture.gt .ROCK .SCISSORS = true ∧
    Gesture.gt .SCISSORS .PAPER = true ∧
    Gesture.gt .ROCK .PAPER = false := by decide

/-- C4 (amended): `Gesture.__gt__` is irreflexive and asymmetric (but not
transitive) on ROCK/PAPER/SCISSORS, forms the standard cycle, any
non-PASS gesture beats PASS, PASS against PASS is a draw, equal gestures
draw, and distinct gestures never draw. -/
theorem gesture_gt_props :
    (∀ a : Gesture, Gesture.gt a a = false) ∧
    (∀ a b : Gesture, (Gesture.gt a b && Gesture.gt b a) = false) ∧
    (Gesture.gt .ROCK .SCISSORS = true ∧
      Gesture.gt .SCISSORS .PAPER = true ∧
      Gesture.gt .PAPER .ROCK = true) ∧
    (∀ a : Gesture, a ≠ .PASS → Gesture.gt a .PASS = true) ∧
    (Gesture.gt .PASS .PASS = false ∧ Gesture.gt .ROCK .PASS = true ∧
      Gesture.gt .PASS .ROCK = false) ∧
    (∀ a b : Gesture, a = b → Gesture.gt a b = false) ∧
    (∀ a b : Gesture, a ≠ b → (Gesture.gt a b || Gesture.gt b a) = true) := by decide

/-! ## The judge -/

/-- Association-list lookup (first match): Python dict lookup. -/
def lookupKey {α : Type} : List (String × α) → String → Option α
  | [], _ => none
  | (k, v) :: rest, key => if k = key then some v else lookupKey rest key

/-- Remove the entries with the given key: `dict.pop(key, None)`. -/
def eraseKey {α : Type} (l : List (String × α)) (key : String) :
    List (String × α) :=
  l.filter (fun kv => kv.1 != key)

/-- Dict assignment `d[key] = v`: the resulting mapping binds `key` to
`v` and leaves every other key unchanged. -/
def setKey {α : Type} (l : List (String × α)) (key : String) (v : α) :
    List (String × α) :=
  (key, v) :: eraseKey l key

/-- The fields of the source's `User` that the judge reads: the `dropped`
flag, the opponent reference and the game reference. Object references
are modelled as keys into the state's stores (`User.__eq__` compares
UIDs only). -/
structure User where
  dropped : Bool
  opponent : Option String
  gid : Option Nat
deriving DecidableEq, Repr

/-- A command the judge posts to a session's command queue
(the `{'action': ...}` dicts). -/
inductive Cmd where
  | endgame
  | endturn
deriving DecidableEq, Repr

/-- `queue.put(cmd)` on the command queue of the given UID. -/
def postCmd (qs : String → List Cmd) (uid : String) (c : Cmd) :
    String → List Cmd :=
  fun x => if x = uid then qs x ++ [c] else qs x

/-- The state the judge loop touches: the `User` objects keyed by UID,
the `Game` objects keyed by a game id standing for object identity, the
judge-local `outstanding` table, and the per-session command queues. -/
structure JState where
  users : String → Option User
  games : Nat → Option Game
  outstanding : List (String × Move)
  queues : String → List Cmd

/-- One iteration of the `judge` loop on intake item `(user, move)`.
Follows the source line by line: discard if the submitter is dropped or
unpaired; if the opponent is dropped, force the game ended in the
submitter's favour; otherwise pair the submission with the opponent's
outstanding one (ordering the two by the game's fixed `(user1, user2)`
order) or record it as outstanding. Returns `none` exactly where the
Python code would dereference a missing object and raise. -/
def judgeStep (st : JState) (uid : String) (m : Move) : Option JState :=
  match st.users uid with
  | none => none
  | some u =>
    if u.dropped then some st
    else
      match u.opponent with
      | none => some st
      | some ouid =>
        match st.users ouid with
        | none => none
        | some o =>
          if o.dropped then
            match u.gid with
            | none => none
            | some gid =>
              match st.games gid with
              | none => none
              | some g =>
                some { st with
                  games := fun i => if i = gid then
                      some { g with winner := some uid, special := some Special.leave }
                    else st.games i,
                  outstanding := eraseKey st.outstanding ouid,
                  queues := postCmd st.queues uid Cmd.endgame }
          else
            match lookupKey st.outstanding ouid with
            | some mOut =>
              match u.gid with
              | none => none
              | some gid =>
                match st.games gid with
                | none => none
                | some g =>
                  let ordered : String × Move × String × Move :=
                    if g.user1 ≠ uid then (ouid, mOut, uid, m)
                    else (uid, m, ouid, mOut)
                  let u1id := ordered.1
                  let m1 := ordered.2.1
                  let u2id := ordered.2.2.1
                  let m2 := ordered.2.2.2
                  match m1 with
                  | Move.sp s =>
                    some { st with
                      games := fun i => if i = gid then
                          some { g with winner := some u2id, special := some s }
                        else st.games i,
                      outstanding := eraseKey st.outstanding ouid,
                      queues := postCmd st.queues u2id Cmd.endgame }
                  | Move.ges g1 =>
                    match m2 with
                    | Move.sp s =>
                      some { st with
                        games := fun i => if i = gid then
                            some { g with winner := some u1id, special := some s }
                          else st.games i,
                        outstanding := eraseKey st.outstanding ouid,
                        queues := postCmd st.queues u1id Cmd.endgame }
                    | Move.ges g2 =>
                      some { st with
                        games := fun i => if i = gid then some (g.turn g1 g2)
                          else st.games i,
                        outstanding := eraseKey st.outstanding ouid,
                        queues := postCmd (postCmd st.queues u1id Cmd.endturn)
                          u2id Cmd.endturn }
            | none =>
              some { st with outstanding := setKey st.outstanding uid m }

lemma lookupKey_eraseKey_self {α : Type} (l : List (String × α)) (key : String) :
    lookupKey (eraseKey l key) key = none := by
  induction l with
  | nil => rfl
  | cons kv rest ih =>
    by_cases hk : kv.1 = key
    · have h1 : (kv.1 != key) = false := by simp [hk]
      simpa [eraseKey, List.filter_cons, h1] using ih
    · have h1 : (kv.1 != key) = true := by simp [hk]
      simpa [eraseKey, List.filter_cons, h1, lookupKey, hk] using ih

lemma lookupKey_eraseKey_ne {α : Type} (l : List (String × α)) (key x : String)
    (h : x ≠ key) : lookupKey (eraseKey l key) x = lookupKey l x := by
  induction l with
  | nil => rfl
  | cons kv rest ih =>
    by_cases hk : kv.1 = key
    · have h1 : (kv.1 != key) = false := by simp [hk]
      have h2 : kv.1 ≠ x := by
        rw [hk]
        exact Ne.symm h
      simp only [eraseKey, List.filter_cons, h1, Bool.false_eq_true, if_false, lookupKey]
      rw [if_neg h2]
      exact ih
    · have h1 : (kv.1 != key) = true := by simp [hk]
      simp only [eraseKey, List.filter_cons, h1, if_true, lookupKey]
      by_cases hx : kv.1 = x
      · rw [if_pos hx, if_pos hx]
      · rw [if_neg hx, if_neg hx]
        exact ih

/-- C2: for a live, paired submitter with a live opponent — if the
opponent has no outstanding entry the submission is recorded keyed by the
submitter's UID (leaving the game's pair with exactly one outstanding
entry, the submitter's); if an entry exists it is popped, the two
submissions are ordered by the game's fixed `(user1, user2)` order, and a
special first move makes user2 the winner with `endgame` posted to user2,
a special second move symmetrically makes user1 the winner, and two
gestures invoke `Game.turn` with `endturn` posted to both. -/
theorem judge_pairing (st : JState) (uid ouid : String) (m : Move)
    (u o : User) (gid : Nat) (g : Game)
    (hu : st.users uid = some u) (hud : u.dropped = false)
    (huo : u.opponent = some ouid)
    (ho : st.users ouid = some o) (hod : o.dropped = false)
    (hgid : u.gid = some gid) (hg : st.games gid = some g)
    (hne : uid ≠ ouid)
    (hpair : (g.user1 = uid ∧ g.user2 = ouid) ∨ (g.user1 = ouid ∧ g.user2 = uid)) :
    (lookupKey st.outstanding ouid = none →
      judgeStep st uid m = some { st with outstanding := setKey st.outstanding uid m } ∧
      lookupKey (setKey st.outstanding uid m) uid = some m ∧
      lookupKey (setKey st.outstanding uid m) ouid = none) ∧
    (∀ mOut : Move, lookupKey st.outstanding ouid = some mOut →
      (∀ s : Special, (if g.user1 = uid then m else mOut) = Move.sp s →
        judgeStep st uid m = some { st with
          games := fun i => if i = gid then
              some { g with winner := some g.user2, special := some s }
            else st.games i,
          outstanding := eraseKey st.outstanding ouid,
          queues := postCmd st.queues g.user2 Cmd.endgame }) ∧
      (∀ g1 : Gesture, ∀ s : Special,
        (if g.user1 = uid then m else mOut) = Move.ges g1 →
        (if g.user1 = uid then mOut else m) = Move.sp s →
        judgeStep st uid m = some { st with
          games := fun i => if i = gid then
              some { g with winner := some g.user1, special := some s }
            else st.games i,
          outstanding := eraseKey st.outstanding ouid,
          queues := postCmd st.queues g.user1 Cmd.endgame }) ∧
      (∀ g1 g2 : Gesture,
        (if g.user1 = uid then m else mOut) = Move.ges g1 →
        (if g.user1 = uid then mOut else m) = Move.ges g2 →
        judgeStep st uid m = some { st with
          games := fun i => if i = gid then some (g.turn g1 g2) else st.games i,
          outstanding := eraseKey st.outstanding ouid,
          queues := postCmd (postCmd st.queues g.user1 Cmd.endturn)
            g.user2 Cmd.endturn })) := by
  constructor
  · intro hout
    refine ⟨?_, ?_, ?_⟩
    · simp [judgeStep, hu, hud, huo, ho, hod, hgid, hg, hout]
    · simp [setKey, lookupKey]
    · have hne2 : ouid ≠ uid := fun hc => hne hc.symm
      simp only [setKey, lookupKey]
      rw [if_neg (fun hc => hne hc)]
      rw [lookupKey_eraseKey_ne st.outstanding uid ouid hne2]
      exact hout
  · intro mOut hout
    rcases hpair with ⟨h1, h2⟩ | ⟨h1, h2⟩
    · -- submitter is game.user1: no swap
      have hswap : ¬ g.user1 ≠ uid := fun hc => hc h1
      refine ⟨?_, ?_, ?_⟩
      · intro s hs
        rw [if_pos h1] at hs
        subst hs
        simp [judgeStep, hu, hud, huo, ho, hod, hgid, hg, hout, hswap, h1, h2]
      · intro g1 s hg1 hs
        rw [if_pos h1] at hg1
        rw [if_pos h1] at hs
        subst hg1
        subst hs
        simp [judgeStep, hu, hud, huo, ho, hod, hgid, hg, hout, hswap, h1, h2]
      · intro g1 g2 hg1 hg2
        rw [if_pos h1] at hg1
        rw [if_pos h1] at hg2
        subst hg1
        subst hg2
        simp [judgeStep, hu, hud, huo, ho, hod, hgid, hg, hout, hswap, h1, h2]
    · -- submitter is game.user2: swapped
      have hswap : g.user1 ≠ uid := by
        rw [h1]
        exact fun hc => hne hc.symm
      have huid : ¬ g.user1 = uid := hswap
      have hne2 : ¬ ouid = uid := fun hc => hne hc.symm
      refine ⟨?_, ?_, ?_⟩
      · intro s hs
        rw [if_neg huid] at hs
        subst hs
        simp [judgeStep, hu, hud, huo, ho, hod, hgid, hg, hout, hswap, hne2, h1, h2]
      · intro g1 s hg1 hs
        rw [if_neg huid] at hg1
        rw [if_neg huid] at hs
        subst hg1
        subst hs
        simp [judgeStep, hu, hud, huo, ho, hod, hgid, hg, hout, hswap, hne2, h1, h2]
      · intro g1 g2 hg1 hg2
        rw [if_neg huid] at hg1
        rw [if_neg huid] at hg2
        subst hg1
        subst hg2
        simp [judgeStep, hu, hud, huo, ho, hod, hgid, hg, hout, hswap, hne2, h1, h2]

/-- Witness for C2: a concrete two-user state in which "B" has an
outstanding PAPER and "A" submits ROCK; the judge plays the turn and
posts `endturn` to both. -/
theorem judge_pairing_witness :
    judgeStep
      { users := fun x =>
          if x = "A" then some { dropped := false, opponent := some "B", gid := some 0 }
          else if x = "B" then some { dropped := false, opponent := some "A", gid := some 0 }
          else none,
        games := fun i => if i = 0 then some (Game.fresh "A" "B") else none,
        outstanding := [("B", Move.ges Gesture.PAPER)],
        queues := fun _ => [] } "A" (Move.ges Gesture.ROCK) =
    some
      { users := fun x =>
          if x = "A" then some { dropped := false, opponent := some "B", gid := some 0 }
          else if x = "B" then some { dropped := false, opponent := some "A", gid := some 0 }
          else none,
        games := fun i => if i = 0 then some ((Game.fresh "A" "B").turn Gesture.ROCK Gesture.PAPER)
          else if i = 0 then some (Game.fresh "A" "B") else none,
        outstanding := eraseKey [("B", Move.ges Gesture.PAPER)] "B",
        queues := postCmd (postCmd (fun _ => []) "A" Cmd.endturn) "B" Cmd.endturn } := by
  have h := judge_pairing
    { users := fun x =>
        if x = "A" then some { dropped := false, opponent := some "B", gid := some 0 }
        else if x = "B" then some { dropped := false, opponent := some "A", gid := some 0 }
        else none,
      games := fun i => if i = 0 then some (Game.fresh "A" "B") else none,
      outstanding := [("B", Move.ges Gesture.PAPER)],
      queues := fun _ => [] }
    "A" "B" (Move.ges Gesture.ROCK)
    { dropped := false, opponent := some "B", gid := some 0 }
    { dropped := false, opponent := some "A", gid := some 0 }
    0 (Game.fresh "A" "B")
    (by simp) rfl rfl (by simp) rfl rfl (by simp) (by simp)
    (Or.inl ⟨rfl, rfl⟩)
  exact (h.2 (Move.ges Gesture.PAPER) (by simp [lookupKey])).2.2
    Gesture.ROCK Gesture.PAPER (by simp [Game.fresh]) (by simp [Game.fresh])

/-- C5: the judge discards a submission from a dropped or unpaired
submitter with the whole state unchanged; a submission from a live paired
submitter whose opponent is dropped forces the game ended — winner is
the submitter, special is `leave`, the opponent's outstanding entry is
evicted, and `endgame` is posted to the submitter's queue only. -/
theorem judge_guards (st : JState) (uid : String) (m : Move) :
    (∀ u : User, st.users uid = some u → u.dropped = true →
      judgeStep st uid m = some st) ∧
    (∀ u : User, st.users uid = some u → u.dropped = false → u.opponent = none →
      judgeStep st uid m = some st) ∧
    (∀ u o : User, ∀ ouid : String, ∀ gid : Nat, ∀ g : Game,
      st.users uid = some u → u.dropped = false → u.opponent = some ouid →
      st.users ouid = some o → o.dropped = true → u.gid = some gid →
      st.games gid = some g →
      judgeStep st uid m = some { st with
        games := fun i => if i = gid then
            some { g with winner := some uid, special := some Special.leave }
          else st.games i,
        outstanding := eraseKey st.outstanding ouid,
        queues := postCmd st.queues uid Cmd.endgame } ∧
      lookupKey (eraseKey st.outstanding ouid) ouid = none ∧
      (∀ x : String, x ≠ ouid →
        lookupKey (eraseKey st.outstanding ouid) x = lookupKey st.outstanding x) ∧
      (postCmd st.queues uid Cmd.endgame) uid = st.queues uid ++ [Cmd.endgame] ∧
      (∀ x : String, x ≠ uid →
        (postCmd st.queues uid Cmd.endgame) x = st.queues x)) := by
  refine ⟨?_, ?_, ?_⟩
  · intro u hu hd
    simp [judgeStep, hu, hd]
  · intro u hu hd hop
    simp [judgeStep, hu, hd, hop]
  · intro u o ouid gid g hu hd hop ho hod hgid hg
    refine ⟨?_, lookupKey_eraseKey_self _ _, ?_, ?_, ?_⟩
    · simp [judgeStep, hu, hd, hop, ho, hod, hgid, hg]
    · intro x hx
      exact lookupKey_eraseKey_ne _ _ _ hx
    · simp [postCmd]
    · intro x hx
      simp [postCmd, hx]

/-- Witness for C5: "A" is paired to dropped "B"; the judge ends the game
in A's favour and posts `endgame` to A only. -/
theorem judge_guards_witness :
    judgeStep
      { users := fun x =>
          if x = "A" then some { dropped := false, opponent := some "B", gid := some 0 }
          else if x = "B" then some { dropped := true, opponent := some "A", gid := some 0 }
          else none,
        games := fun i => if i = 0 then some (Game.fresh "A" "B") else none,
        outstanding := [("B", Move.ges Gesture.PAPER)],
        queues := fun _ => [] } "A" (Move.ges Gesture.ROCK) =
    some
      { users := fun x =>
          if x = "A" then some { dropped := false, opponent := some "B", gid := some 0 }
          else if x = "B" then some { dropped := true, opponent := some "A", gid := some 0 }
          else none,
        games := fun i => if i = 0 then
            some { Game.fresh "A" "B" with winner := some "A", special := some Special.leave }
          else if i = 0 then some (Game.fresh "A" "B") else none,
        outstanding := eraseKey [("B", Move.ges Gesture.PAPER)] "B",
        queues := postCmd (fun _ => []) "A" Cmd.endgame } ∧
    lookupKey (eraseKey [("B", Move.ges Gesture.PAPER)] "B") "B" = none := by
  have h := (judge_guards
    { users := fun x =>
        if x = "A" then some { dropped := false, opponent := some "B", gid := some 0 }
        else if x = "B" then some { dropped := true, opponent := some "A", gid := some 0 }
        else none,
      games := fun i => if i = 0 then some (Game.fresh "A" "B") else none,
      outstanding := [("B", Move.ges Gesture.PAPER)],
      queues := fun _ => [] } "A" (Move.ges Gesture.ROCK)).2.2
    { dropped := false, opponent := some "B", gid := some 0 }
    { dropped := true, opponent := some "A", gid := some 0 }
    "B" 0 (Game.fresh "A" "B")
    (by simp) rfl rfl (by simp) rfl rfl (by simp)
  exact ⟨h.1, h.2.1⟩

/-! ## The matchmaker -/

/-- What the matchmaker reads of a participant: its UID and its
`affiliation` (set exactly for bots, pointing at the requesting human's
UID). -/
structure MUser where
  uid : String
  affiliation : Option String
deriving DecidableEq, Repr

/-- A command the matchmaker posts to a session's command queue. -/
inductive MCmd where
  | terminate
  | livecheck
  | matched (opponentUid : String)
deriving DecidableEq, Repr

/-- An observable effect of one matchmaker iteration. -/
inductive MEffect where
  | post (uid : String) (c : MCmd)
  | botSpawned (botUid : String) (forUid : String)
  | paired (u1 u2 : String)
deriving DecidableEq, Repr

/-- One iteration of the `matchmaker` loop, translated statement by
statement (including the two `continue`s that end the iteration from
inside the `if waiting is not None` block, before the on-hold restore at
the loop bottom). Inputs: the current waiting slot, the intake item
`(new_user, bot_request)`, the UID the spawned bot would get, and the
outcome of the livecheck exchange (`false` also covers the 10-second
timeout). Output: the waiting slot at the end of the iteration and the
effects in order. -/
def matchmakerIter (waiting : Option MUser) (newUser : MUser)
    (botRequest : Bool) (botUid : String) (live : Bool) :
    Option MUser × List MEffect :=
  -- if a bot is waiting, kick it out
  let kicked : Option MUser × List MEffect :=
    match waiting with
    | some w =>
      if w.affiliation.isSome then (none, [MEffect.post w.uid MCmd.terminate])
      else (some w, [])
    | none => (none, [])
  let w0 := kicked.1
  let eff0 := kicked.2
  -- bot request: put new_user into the waiting slot (any other waiting
  -- user goes on hold), spawn the bot and treat it as the new user
  let held : Option MUser × Option MUser × MUser × List MEffect :=
    if botRequest then
      let bot : MUser := { uid := botUid, affiliation := some newUser.uid }
      let eff := [MEffect.botSpawned botUid newUser.uid]
      match w0 with
      | none => (some newUser, none, bot, eff)
      | some w =>
        if w ≠ newUser then (some newUser, some w, bot, eff)
        else (w0, none, bot, eff)
    else (w0, none, newUser, [])
  let w1 := held.1
  let onHold := held.2.1
  let nu := held.2.2.1
  let eff1 := held.2.2.2
  match w1 with
  | some w =>
    -- livecheck the waiting user; both outcomes `continue` the outer
    -- loop, skipping the on-hold restore below
    let effLc := [MEffect.post w.uid MCmd.livecheck]
    if live then
      (none, eff0 ++ eff1 ++ effLc ++
        [MEffect.paired w.uid nu.uid,
         MEffect.post w.uid (MCmd.matched nu.uid),
         MEffect.post nu.uid (MCmd.matched w.uid)])
    else
      (some nu, eff0 ++ eff1 ++ effLc)
  | none =>
    -- waiting slot empty: take it; then restore the on-hold user, if any
    let w2 : Option MUser := some nu
    match onHold with
    | some h => (some h, eff0 ++ eff1)
    | none => (w2, eff0 ++ eff1)

/-- C8 (code evaluated at the failing input): a human "W" is waiting and
human "U" requests a bot. "W" is displaced on hold, but both livecheck
outcomes leave the iteration with `continue` before the restore at the
loop bottom, so "W" does not occupy the waiting slot when the iteration
completes — the restore written at the loop bottom is unreachable
whenever the on-hold scratch is set. -/
theorem matchmaker_on_hold_lost :
    (matchmakerIter (some { uid := "W", affiliation := none })
      { uid := "U", affiliation := none } true "B1" true).1 = none ∧
    (matchmakerIter (some { uid := "W", affiliation := none })
      { uid := "U", affiliation := none } true "B1" false).1 =
      some { uid := "B1", affiliation := some "U" } ∧
    (∀ live : Bool,
      (matchmakerIter (some { uid := "W", affiliation := none })
        { uid := "U", affiliation := none } true "B1" live).1 ≠
        some { uid := "W", affiliation := none }) := by decide

/-! ## The session move dispatch and the judge-queue sends -/

/-- The possible outcomes of the per-turn `wait_for_message` call inside
`user_session_play_game`: connection closed (`None`), the 10.5-second
deadline exceeded (`{}`), the `quit` or `surrender` interrupters, or a
`move` message carrying an integer. -/
inductive RecvOutcome where
  | closed
  | timedOut
  | quitMsg
  | surrenderMsg
  | moveMsg (v : Int)
deriving DecidableEq, Repr

/-- What `user_session_play_game` submits to the judge for each receive
outcome: `leave` on close or quit, `surrender` on surrender, PASS on
timeout, and `Gesture(resp['move'])` for a move message. -/
def moveOutcomeSubmission : RecvOutcome → Move
  | .closed => Move.sp Special.leave
  | .timedOut => Move.ges Gesture.PASS
  | .quitMsg => Move.sp Special.leave
  | .surrenderMsg => Move.sp Special.surrender
  | .moveMsg v => Move.ges (Gesture.ofValue v)

/-- C6: a `move` message whose integer is outside {0, 1, 2} degrades to
a PASS submission (`Gesture._missing_` returns PASS for every unknown
value), and exceeding the 10.5-second move deadline likewise submits
PASS. -/
theorem session_pass_degradation (v : Int)
    (h0 : v ≠ 0) (h1 : v ≠ 1) (h2 : v ≠ 2) :
    moveOutcomeSubmission (RecvOutcome.moveMsg v) = Move.ges Gesture.PASS ∧
    moveOutcomeSubmission RecvOutcome.timedOut = Move.ges Gesture.PASS := by
  constructor
  · simp [moveOutcomeSubmission, Gesture.ofValue, h0, h1, h2]
  · rfl

/-- Witness for C6 at the unknown move value 7. -/
theorem session_pass_degradation_witness :
    moveOutcomeSubmission (RecvOutcome.moveMsg 7) = Move.ges Gesture.PASS ∧
    moveOutcomeSubmission RecvOutcome.timedOut = Move.ges Gesture.PASS :=
  session_pass_degradation 7 (by decide) (by decide) (by decide)

/-- A call of `judge_queue.put(item)` in the source: with `await` the
item is enqueued; without `await` (a bare `judge_queue.put(...)`
expression) asyncio only creates a coroutine object that is never run,
so nothing reaches the queue. -/
inductive PutCall where
  | awaited (item : String × Move)
  | notAwaited (item : String × Move)
deriving DecidableEq, Repr

/-- Effect of a sequence of put calls on the judge intake queue. -/
def runPutCalls (q : List (String × Move)) : List PutCall → List (String × Move)
  | [] => q
  | PutCall.awaited it :: rest => runPutCalls (q ++ [it]) rest
  | PutCall.notAwaited _ :: rest => runPutCalls q rest

/-- The judge-queue sends of the handler for a `ConnectionClosed` raised
while sending the `endturn` frame: `judge_queue.put((me, 'leave'))`
without `await`, then `return False`. -/
def endturnSendFailPuts (me : String) : List PutCall :=
  [PutCall.notAwaited (me, Move.sp Special.leave)]

/-- The judge-queue sends of the session's uncaught-`TimeoutError`
handler: `judge_queue.put((me, 'leave'))` without `await`. -/
def timeoutHandlerPuts (me : String) : List PutCall :=
  [PutCall.notAwaited (me, Move.sp Special.leave)]

/-- For contrast, the handler for a connection drop while waiting for a
move does `await judge_queue.put((me, 'leave'))`. -/
def recvClosedPuts (me : String) : List PutCall :=
  [PutCall.awaited (me, Move.sp Special.leave)]

/-- C9 (code evaluated at the failing paths): at the `endturn`-send
failure path and at the uncaught-`TimeoutError` path the source calls
`judge_queue.put` without `await`, so the judge intake queue is left
unchanged — no `(me, leave)` submission is enqueued — whereas the awaited
call of the receive-closed path does enqueue one. -/
theorem judge_queue_put_not_awaited (q : List (String × Move)) (me : String) :
    runPutCalls q (endturnSendFailPuts me) = q ∧
    runPutCalls q (timeoutHandlerPuts me) = q ∧
    runPutCalls q (recvClosedPuts me) = q ++ [(me, Move.sp Special.leave)] := by
  refine ⟨rfl, rfl, rfl⟩

/-! ## Logon name truncation (UTF-8) -/

/-- A Unicode scalar value: a code point of a Python `str` that
`str.encode('utf-8')` accepts (below 0x110000 and not a surrogate). -/
def ValidScalar (n : Nat) : Prop :=
  n < 0x110000 ∧ ¬ (0xD800 ≤ n ∧ n ≤ 0xDFFF)

instance (n : Nat) : Decidable (ValidScalar n) := by
  unfold ValidScalar
  infer_instance

/-- The UTF-8 encoding of one scalar value. -/
def utf8EncodeChar (n : Nat) : List Nat :=
  if n < 0x80 then [n]
  else if n < 0x800 then [0xC0 + n / 64, 0x80 + n % 64]
  else if n < 0x10000 then
    [0xE0 + n / 4096, 0x80 + (n / 64) % 64, 0x80 + n % 64]
  else
    [0xF0 + n / 262144, 0x80 + (n / 4096) % 64, 0x80 + (n / 64) % 64, 0x80 + n % 64]

/-- `name.encode('utf-8')` over a string of scalar values. -/
def utf8Encode : List Nat → List Nat
  | [] => []
  | c :: rest => utf8EncodeChar c ++ utf8Encode rest

/-- Classify the bytes at the head of `l`: if a complete valid UTF-8
sequence starts there, return the decoded scalar value and the
sequence's byte count, otherwise `none`. The checks mirror RFC 3629
(and CPython's decoder): lead bytes C2-DF, E0-EF and F0-F4 with the
E0/ED/F0/F4 second-byte restrictions, which exclude overlong forms,
surrogates and values above 0x10FFFF. -/
def seqLen (l : List Nat) : Option (Nat × Nat) :=
  match l with
  | [] => none
  | b1 :: rest =>
    if b1 < 0x80 then some (b1, 1)
    else if 0xC2 ≤ b1 ∧ b1 ≤ 0xDF then
      match rest with
      | b2 :: _ =>
        if 0x80 ≤ b2 ∧ b2 ≤ 0xBF then some ((b1 - 0xC0) * 64 + (b2 - 0x80), 2)
        else none
      | [] => none
    else if 0xE0 ≤ b1 ∧ b1 ≤ 0xEF then
      match rest with
      | b2 :: b3 :: _ =>
        if (0x80 ≤ b2 ∧ b2 ≤ 0xBF) ∧ (0x80 ≤ b3 ∧ b3 ≤ 0xBF) ∧
            (b1 = 0xE0 → 0xA0 ≤ b2) ∧ (b1 = 0xED → b2 ≤ 0x9F) then
          some ((b1 - 0xE0) * 4096 + (b2 - 0x80) * 64 + (b3 - 0x80), 3)
        else none
      | _ => none
    else if 0xF0 ≤ b1 ∧ b1 ≤ 0xF4 then
      match rest with
      | b2 :: b3 :: b4 :: _ =>
        if (0x80 ≤ b2 ∧ b2 ≤ 0xBF) ∧ (0x80 ≤ b3 ∧ b3 ≤ 0xBF) ∧
            (0x80 ≤ b4 ∧ b4 ≤ 0xBF) ∧
            (b1 = 0xF0 → 0x90 ≤ b2) ∧ (b1 = 0xF4 → b2 ≤ 0x8F) then
          some ((b1 - 0xF0) * 262144 + (b2 - 0x80) * 4096 + (b3 - 0x80) * 64 +
            (b4 - 0x80), 4)
        else none
      | _ => none
    else none

/-- `bytes.decode('utf-8', 'ignore')`: decode the valid sequences and
drop the bytes of invalid or incomplete ones. One byte is skipped per
error; since a continuation byte can never start a sequence, this
produces the same character output as CPython's maximal-subpart
skipping. -/
def utf8DecodeIgnore (l : List Nat) : List Nat :=
  match l with
  | [] => []
  | b :: rest =>
    match seqLen (b :: rest) with
    | some (n, cnt) => n :: utf8DecodeIgnore (rest.drop (cnt - 1))
    | none => utf8DecodeIgnore rest
termination_by l.length
decreasing_by
  all_goals simp <;> omega

/-- The name handling of `user_session_logon`: a name whose UTF-8
encoding exceeds 16 bytes is replaced by
`name.encode('utf-8')[:16].decode('utf-8', 'ignore')`. -/
def storedName (name : List Nat) : List Nat :=
  if 16 < (utf8Encode name).length then
    utf8DecodeIgnore ((utf8Encode name).take 16)
  else name

lemma utf8EncodeChar_length (n : Nat) :
    1 ≤ (utf8EncodeChar n).length ∧ (utf8EncodeChar n).length ≤ 4 := by
  unfold utf8EncodeChar
  split_ifs <;> simp

/-- Decoding a validly encoded character at the head of the byte stream
yields that character and continues with the remaining bytes. -/
lemma utf8DecodeIgnore_encodeChar (n : Nat) (hv : ValidScalar n)
    (rest : List Nat) :
    utf8DecodeIgnore (utf8EncodeChar n ++ rest) = n :: utf8DecodeIgnore rest := by
  obtain ⟨hlt, hsur⟩ := hv
  by_cases h1 : n < 0x80
  · rw [show utf8EncodeChar n ++ rest = n :: rest by simp [utf8EncodeChar, h1]]
    rw [utf8DecodeIgnore]
    simp [seqLen, h1]
  · by_cases h2 : n < 0x800
    · rw [show utf8EncodeChar n ++ rest = (0xC0 + n / 64) :: (0x80 + n % 64) :: rest by
        simp [utf8EncodeChar, h1, h2]]
      rw [utf8DecodeIgnore]
      have hb1 : ¬ (0xC0 + n / 64 < 0x80) := by omega
      have hb1r : 0xC2 ≤ 0xC0 + n / 64 ∧ 0xC0 + n / 64 ≤ 0xDF := by omega
      have hb2r : 0x80 ≤ 0x80 + n % 64 ∧ 0x80 + n % 64 ≤ 0xBF := by omega
      simp [seqLen, hb1, hb1r, hb2r]
      omega
    · by_cases h3 : n < 0x10000
      · rw [show utf8EncodeChar n ++ rest =
            (0xE0 + n / 4096) :: (0x80 + (n / 64) % 64) :: (0x80 + n % 64) :: rest by
          simp [utf8EncodeChar, h1, h2, h3]]
        rw [utf8DecodeIgnore]
        have hb1 : ¬ (0xE0 + n / 4096 < 0x80) := by omega
        have hb1r : ¬ (0xC2 ≤ 0xE0 + n / 4096 ∧ 0xE0 + n / 4096 ≤ 0xDF) := by omega
        have hb1e : 0xE0 ≤ 0xE0 + n / 4096 ∧ 0xE0 + n / 4096 ≤ 0xEF := by omega
        have hdd1 : n / 64 / 64 = n / 4096 := by
          rw [Nat.div_div_eq_div_mul]
        simp only [seqLen]
        rw [if_neg hb1, if_neg hb1r, if_pos hb1e]
        split_ifs with hcnd
        · show ((0xE0 + n / 4096 - 0xE0) * 4096 + (0x80 + (n / 64) % 64 - 0x80) * 64 +
            (0x80 + n % 64 - 0x80)) :: utf8DecodeIgnore rest = n :: utf8DecodeIgnore rest
          have hval : (0xE0 + n / 4096 - 0xE0) * 4096 +
              (0x80 + (n / 64) % 64 - 0x80) * 64 + (0x80 + n % 64 - 0x80) = n := by
            omega
          rw [hval]
        · exact absurd (by omega) hcnd
      · rw [show utf8EncodeChar n ++ rest =
            (0xF0 + n / 262144) :: (0x80 + (n / 4096) % 64) ::
              (0x80 + (n / 64) % 64) :: (0x80 + n % 64) :: rest by
          simp [utf8EncodeChar, h1, h2, h3]]
        rw [utf8DecodeIgnore]
        have hb1 : ¬ (0xF0 + n / 262144 < 0x80) := by omega
        have hb1r : ¬ (0xC2 ≤ 0xF0 + n / 262144 ∧ 0xF0 + n / 262144 ≤ 0xDF) := by
          omega
        have hb1e : ¬ (0xE0 ≤ 0xF0 + n / 262144 ∧ 0xF0 + n / 262144 ≤ 0xEF) := by
          omega
        have hb1f : 0xF0 ≤ 0xF0 + n / 262144 ∧ 0xF0 + n / 262144 ≤ 0xF4 := by omega
        have hdd1 : n / 64 / 64 = n / 4096 := by
          rw [Nat.div_div_eq_div_mul]
        have hdd2 : n / 4096 / 64 = n / 262144 := by
          rw [Nat.div_div_eq_div_mul]
        simp only [seqLen]
        rw [if_neg hb1, if_neg hb1r, if_neg hb1e, if_pos hb1f]
        split_ifs with hcnd
        · show ((0xF0 + n / 262144 - 0xF0) * 262144 +
            (0x80 + (n / 4096) % 64 - 0x80) * 4096 +
            (0x80 + (n / 64) % 64 - 0x80) * 64 +
            (0x80 + n % 64 - 0x80)) :: utf8DecodeIgnore rest = n :: utf8DecodeIgnore rest
          have hval : (0xF0 + n / 262144 - 0xF0) * 262144 +
              (0x80 + (n / 4096) % 64 - 0x80) * 4096 +
              (0x80 + (n / 64) % 64 - 0x80) * 64 + (0x80 + n % 64 - 0x80) = n := by
            omega
          rw [hval]
        · exact absurd (by omega) hcnd

/-- A run of continuation bytes decodes to nothing. -/
lemma utf8DecodeIgnore_contOnly (l : List Nat)
    (h : ∀ b ∈ l, 0x80 ≤ b ∧ b ≤ 0xBF) : utf8DecodeIgnore l = [] := by
  induction l with
  | nil => rw [utf8DecodeIgnore]
  | cons b rest ih =>
    have hb := h b (List.mem_cons_self b rest)
    have hrest : ∀ x ∈ rest, 0x80 ≤ x ∧ x ≤ 0xBF :=
      fun x hx => h x (List.mem_cons_of_mem b hx)
    have h1 : ¬ (b < 0x80) := by omega
    have h2 : ¬ (0xC2 ≤ b ∧ b ≤ 0xDF) := by omega
    have h3 : ¬ (0xE0 ≤ b ∧ b ≤ 0xEF) := by omega
    have h4 : ¬ (0xF0 ≤ b ∧ b ≤ 0xF4) := by omega
    rw [utf8DecodeIgnore]
    simp [seqLen, h1, h2, h3, h4]
    exact ih hrest

/-- A proper prefix of one encoded character decodes to nothing: the
truncated trailing sequence is dropped. -/
lemma utf8DecodeIgnore_truncatedChar (n : Nat) (hv : ValidScalar n) (k : Nat)
    (hk : k < (utf8EncodeChar n).length) :
    utf8DecodeIgnore ((utf8EncodeChar n).take k) = [] := by
  obtain ⟨hlt, hsur⟩ := hv
  unfold utf8EncodeChar at hk ⊢
  by_cases h1 : n < 0x80
  · simp only [h1, if_true, List.length_cons, List.length_nil] at hk
    interval_cases k
    · rw [List.take_zero, utf8DecodeIgnore]
  · by_cases h2 : n < 0x800
    · simp only [h1, h2, if_true, if_false, List.length_cons, List.length_nil] at hk
      have hb1 : ¬ (0xC0 + n / 64 < 0x80) := by omega
      have hb1r : 0xC2 ≤ 0xC0 + n / 64 ∧ 0xC0 + n / 64 ≤ 0xDF := by omega
      interval_cases k
      · simp only [h1, h2, if_true, if_false, List.take_zero]
        rw [utf8DecodeIgnore]
      · simp only [h1, h2, if_true, if_false, List.take_succ_cons, List.take_zero]
        rw [utf8DecodeIgnore]
        simp [seqLen, hb1, hb1r]
        rw [utf8DecodeIgnore]
    · by_cases h3 : n < 0x10000
      · simp only [h1, h2, h3, if_true, if_false, List.length_cons,
          List.length_nil] at hk
        have hb1 : ¬ (0xE0 + n / 4096 < 0x80) := by omega
        have hb1r : ¬ (0xC2 ≤ 0xE0 + n / 4096 ∧ 0xE0 + n / 4096 ≤ 0xDF) := by omega
        have hb1e : 0xE0 ≤ 0xE0 + n / 4096 ∧ 0xE0 + n / 4096 ≤ 0xEF := by omega
        have hb2c : 0x80 ≤ 0x80 + (n / 64) % 64 ∧ 0x80 + (n / 64) % 64 ≤ 0xBF := by
          omega
        interval_cases k
        · simp only [h1, h2, h3, if_true, if_false, List.take_zero]
          rw [utf8DecodeIgnore]
        · simp only [h1, h2, h3, if_true, if_false, List.take_succ_cons,
            List.take_zero]
          rw [utf8DecodeIgnore]
          simp [seqLen, hb1, hb1r, hb1e]
          rw [utf8DecodeIgnore]
        · simp only [h1, h2, h3, if_true, if_false, List.take_succ_cons,
            List.take_zero]
          rw [utf8DecodeIgnore]
          simp [seqLen, hb1, hb1r, hb1e]
          exact utf8DecodeIgnore_contOnly _ (by
            intro b hb
            simp at hb
            omega)
      · simp only [h1, h2, h3, if_false, List.length_cons, List.length_nil] at hk
        have hb1 : ¬ (0xF0 + n / 262144 < 0x80) := by omega
        have hb1r : ¬ (0xC2 ≤ 0xF0 + n / 262144 ∧ 0xF0 + n / 262144 ≤ 0xDF) := by
          omega
        have hb1e : ¬ (0xE0 ≤ 0xF0 + n / 262144 ∧ 0xF0 + n / 262144 ≤ 0xEF) := by
          omega
        have hb1f : 0xF0 ≤ 0xF0 + n / 262144 ∧ 0xF0 + n / 262144 ≤ 0xF4 := by omega
        interval_cases k
        · simp only [h1, h2, h3, if_false, List.take_zero]
          rw [utf8DecodeIgnore]
        · simp only [h1, h2, h3, if_false, List.take_succ_cons, List.take_zero]
          rw [utf8DecodeIgnore]
          simp [seqLen, hb1, hb1r, hb1e, hb1f]
          rw [utf8DecodeIgnore]
        · simp only [h1, h2, h3, if_false, List.take_succ_cons, List.take_zero]
          rw [utf8DecodeIgnore]
          simp [seqLen, hb1, hb1r, hb1e, hb1f]
          exact utf8DecodeIgnore_contOnly _ (by
            intro b hb
            simp at hb
            omega)
        · simp only [h1, h2, h3, if_false, List.take_succ_cons, List.take_zero]
          rw [utf8DecodeIgnore]
          simp [seqLen, hb1, hb1r, hb1e, hb1f]
          exact utf8DecodeIgnore_contOnly _ (by
            intro b hb
            simp at hb
            omega)

/-- Decoding any 16-byte (or shorter) truncation of a validly encoded
string yields a character-boundary-safe result: some number of whole
leading characters, whose encoding is a byte-level truncation of the
original of no greater length. -/
lemma utf8DecodeIgnore_take : ∀ (s : List Nat), (∀ c ∈ s, ValidScalar c) →
    ∀ k : Nat, ∃ m j, utf8DecodeIgnore ((utf8Encode s).take k) = s.take m ∧
      utf8Encode (s.take m) = (utf8Encode s).take j ∧ j ≤ k := by
  intro s
  induction s with
  | nil =>
    intro _ k
    refine ⟨0, 0, ?_, by simp [utf8Encode], by omega⟩
    simp only [utf8Encode, List.take_nil]
    rw [utf8DecodeIgnore]
  | cons c rest ih =>
    intro hs k
    have hc : ValidScalar c := hs c (List.mem_cons_self c rest)
    have hrest : ∀ x ∈ rest, ValidScalar x :=
      fun x hx => hs x (List.mem_cons_of_mem c hx)
    by_cases hk : (utf8EncodeChar c).length ≤ k
    · obtain ⟨m, j, hdec, henc, hj⟩ := ih hrest (k - (utf8EncodeChar c).length)
      have key : (utf8Encode (c :: rest)).take k =
          utf8EncodeChar c ++ (utf8Encode rest).take (k - (utf8EncodeChar c).length) := by
        simp only [utf8Encode]
        rw [List.take_append_eq_append_take, List.take_of_length_le hk]
      refine ⟨m + 1, (utf8EncodeChar c).length + j, ?_, ?_, by omega⟩
      · rw [key, utf8DecodeIgnore_encodeChar c hc, hdec, List.take_succ_cons]
      · rw [List.take_succ_cons]
        simp only [utf8Encode]
        rw [henc, List.take_append]
    · push_neg at hk
      have key : (utf8Encode (c :: rest)).take k = (utf8EncodeChar c).take k := by
        simp only [utf8Encode]
        exact List.take_append_of_le_length (by omega)
      refine ⟨0, 0, ?_, by simp [utf8Encode], by omega⟩
      rw [key, utf8DecodeIgnore_truncatedChar c hc k hk, List.take_zero]

/-- C7: for every logon name (a string of Unicode scalar values), the
stored display name encodes to at most 16 UTF-8 bytes and is itself a
string of scalar values; a name of at most 16 encoded bytes is stored
unchanged, and a longer one is cut on a character boundary: the stored
name is a character-level truncation of the input whose encoding is a
byte-level truncation (of at most 16 bytes) of the input's encoding,
the incomplete trailing bytes being discarded. -/
theorem logon_name_truncation (name : List Nat)
    (hv : ∀ c ∈ name, ValidScalar c) :
    (utf8Encode (storedName name)).length ≤ 16 ∧
    (∀ c ∈ storedName name, ValidScalar c) ∧
    ((utf8Encode name).length ≤ 16 → storedName name = name) ∧
    (16 < (utf8Encode name).length →
      ∃ m j, storedName name = name.take m ∧
        utf8Encode (name.take m) = (utf8Encode name).take j ∧ j ≤ 16) := by
  by_cases h : 16 < (utf8Encode name).length
  · obtain ⟨m, j, hdec, henc, hj⟩ := utf8DecodeIgnore_take name hv 16
    have hsn : storedName name = name.take m := by
      rw [storedName, if_pos h]
      exact hdec
    refine ⟨?_, ?_, ?_, ?_⟩
    · rw [hsn, henc, List.length_take]
      omega
    · intro c hcm
      rw [hsn] at hcm
      exact hv c (List.take_subset m name hcm)
    · intro hle
      omega
    · intro _
      exact ⟨m, j, hsn, henc, hj⟩
  · have hsn : storedName name = name := by
      rw [storedName, if_neg h]
    refine ⟨?_, ?_, fun _ => hsn, fun hgt => absurd hgt h⟩
    · rw [hsn]
      omega
    · intro c hcm
      rw [hsn] at hcm
      exact hv c hcm

/-- Witness for C7 at a 20-byte all-ASCII name. -/
theorem logon_name_truncation_witness :
    (utf8Encode (storedName (List.replicate 20 97))).length ≤ 16 ∧
    (∃ m j, storedName (List.replicate 20 97) = (List.replicate 20 97).take m ∧
      utf8Encode ((List.replicate 20 97).take m) =
        (utf8Encode (List.replicate 20 97)).take j ∧ j ≤ 16) := by
  have h := logon_name_truncation (List.replicate 20 97) (by decide)
  exact ⟨h.1, h.2.2.2 (by decide)⟩

/-- C10: a non-empty logon name (the logon validity test requires one)
stays non-empty after truncation: the first character occupies at most
4 bytes, so it always survives the 16-byte cut. -/
theorem logon_name_nonempty (name : List Nat)
    (hv : ∀ c ∈ name, ValidScalar c) (hne : name ≠ []) :
    storedName name ≠ [] := by
  by_cases h : 16 < (utf8Encode name).length
  · cases name with
    | nil => exact absurd rfl hne
    | cons c rest =>
      have hc : ValidScalar c := hv c (List.mem_cons_self c rest)
      have hlen := utf8EncodeChar_length c
      have key : (utf8Encode (c :: rest)).take 16 =
          utf8EncodeChar c ++ (utf8Encode rest).take (16 - (utf8EncodeChar c).length) := by
        simp only [utf8Encode]
        rw [List.take_append_eq_append_take, List.take_of_length_le (by omega)]
      rw [storedName, if_pos h, key, utf8DecodeIgnore_encodeChar c hc]
      simp
  · rw [storedName, if_neg h]
    exact hne

/-- Witness for C10 at the same concrete name. -/
theorem logon_name_nonempty_witness :
    storedName (List.replicate 20 97) ≠ [] :=
  logon_name_nonempty (List.replicate 20 97) (by decide) (by decide)

end RPS
